import Mathlib

/-!
Verification development for the Draft Order service (`src/server.js`).

Prices are modelled as rationals (`ℚ`); JavaScript `Math.round` becomes
`jsRound`, `Number.prototype.toFixed(2)` becomes `toFixed2`, machine state
(the process-local cache map) is passed explicitly, and fallible code
returns `Except`.
-/

namespace DraftOrder

/-- JavaScript `Math.round`: round half toward positive infinity. -/
def jsRound (x : ℚ) : ℤ := ⌊x + 1/2⌋

/-- Rounding half away from zero, the tie behaviour of `toFixed`. -/
def roundHalfAway (x : ℚ) : ℤ := if 0 ≤ x then ⌊x + 1/2⌋ else -⌊-x + 1/2⌋

/-- JavaScript `Number(x.toFixed(2))` on a rational: round to cents. -/
def toFixed2 (x : ℚ) : ℚ := (roundHalfAway (x * 100) : ℚ) / 100

theorem jsRound_eq_of_bounds (x : ℚ) (n : ℤ) (h1 : (n : ℚ) ≤ x + 1/2)
    (h2 : x + 1/2 < (n : ℚ) + 1) : jsRound x = n := by
  unfold jsRound
  rw [Int.floor_eq_iff]
  refine ⟨h1, ?_⟩
  linarith

theorem roundHalfAway_intCast (n : ℤ) : roundHalfAway (n : ℚ) = n := by
  unfold roundHalfAway
  by_cases h : (0:ℚ) ≤ (n:ℚ)
  · rw [if_pos h]
    rw [Int.floor_eq_iff]
    constructor
    · linarith
    · linarith
  · rw [if_neg h]
    have : ⌊-(n:ℚ) + 1/2⌋ = -n := by
      rw [Int.floor_eq_iff]
      constructor
      · push_cast; linarith
      · push_cast; linarith
    rw [this, neg_neg]

/-- A rational that is a whole number of cents is unchanged by `toFixed2`. -/
theorem toFixed2_cents (n : ℤ) : toFixed2 ((n : ℚ) / 100) = (n : ℚ) / 100 := by
  unfold toFixed2
  have h : ((n : ℚ) / 100) * 100 = (n : ℚ) := by ring
  rw [h, roundHalfAway_intCast]

/-! ### String helpers

Kernel-friendly versions of the JavaScript string operations used by the
server: `toUpperCase`, `toLowerCase`, `startsWith`. -/

/-- JavaScript `toUpperCase` (ASCII), as a structural map over characters. -/
def jsToUpper (s : String) : String := String.mk (s.data.map Char.toUpper)

/-- JavaScript `toLowerCase` (ASCII), as a structural map over characters. -/
def jsToLower (s : String) : String := String.mk (s.data.map Char.toLower)

def listPrefix : List Char → List Char → Bool
  | [], _ => true
  | _ :: _, [] => false
  | a :: as, b :: bs => a = b && listPrefix as bs

/-- JavaScript `s.startsWith(pre)`. -/
def strStartsWith (s pre : String) : Bool := listPrefix pre.data s.data

/-! ### Pricing engine (`computeUnitPriceFromF`, server.js lines 185-194) -/

/-- The fixed divisor normalizing an F-grade price to the A grade. -/
def F_MULTIPLIER : ℚ := 206/100

/-- The `GRADE_UPCHARGE` table; a key outside the table yields 0. -/
def gradeUpcharge (g : String) : ℚ :=
  if g = "A" then 0
  else if g = "B" then 0
  else if g = "C" then 8/100
  else if g = "D" then 32/100
  else if g = "E" then 63/100
  else if g = "F" then 106/100
  else 0

/-- Embedding of `computeUnitPriceFromF({fPrice, grade, cording})`:
uppercase the grade, divide the F-grade price by `F_MULTIPLIER`, apply the
grade upcharge, apply the 1.10 cording surcharge, round to cents. -/
def computeUnitPriceFromF (fPrice : ℚ) (grade : String) (cording : Bool) : ℚ :=
  let g := jsToUpper grade
  let aPrice := fPrice / F_MULTIPLIER
  let unit0 := aPrice * (1 + gradeUpcharge g)
  let unit := if cording then unit0 * (110/100) else unit0
  (jsRound (unit * 100) : ℚ) / 100

/-- Modelled from the spec: the unit-price formula exactly as claim C2
words it, with the upcharge table applied to the grade argument directly
(no case normalization). Used only to compare against the source
definition `computeUnitPriceFromF`. -/
def claimedUnitPrice (basePrice : ℚ) (grade : String) (corded : Bool) : ℚ :=
  (jsRound ((basePrice / F_MULTIPLIER) * (1 + gradeUpcharge grade) *
    (if corded then 110/100 else 1) * 100) : ℚ) / 100

/-! ### Process-local cache (`memCache`, `memGet`, `memSet`, server.js lines 155-162)

The in-process `Map` is an association list from keys to entries; the
current time `Date.now()` is an explicit parameter.  The map stores either
a cached variant price (under a `vprice:` key) or an idempotency payload
`{ invoiceUrl }` (under an `idem:` key). -/

/-- A value stored in the process-local cache map. -/
inductive CVal where
  | num (q : ℚ)
  | idem (invoiceUrl : String)
deriving DecidableEq

/-- A cache entry `{ value, exp }` as written by `memSet`. -/
structure CacheEntry where
  value : CVal
  exp : ℤ
deriving DecidableEq

/-- The process-local `memCache` map. -/
abbrev MemMap := List (String × CacheEntry)

/-- Embedding of `memGet`: read the key; a missing or expired entry yields
`null`.  The source performs no mutation, so the returned map is the input
map — the state is threaded explicitly to make that visible. -/
def memGet (m : MemMap) (now : ℤ) (key : String) : Option CVal × MemMap :=
  match List.lookup key m with
  | none => (none, m)
  | some e => if e.exp < now then (none, m) else (some e.value, m)

/-- Embedding of `memSet`: store `{ value, exp: now + ttl }` under the key
(ttl in milliseconds).  `Map.set` overwrites, which the association list
realizes by shadowing. -/
def memSet (m : MemMap) (now : ℤ) (key : String) (v : CVal) (ttlMs : ℤ) : MemMap :=
  (key, ⟨v, now + ttlMs⟩) :: m

/-- Embedding of `cacheGet` in the no-Redis configuration: `memGet`, with
a hit only when the stored value is a number (all `vprice:` writes store
numbers). -/
def cacheGetNum (m : MemMap) (now : ℤ) (key : String) : Option ℚ :=
  match (memGet m now key).1 with
  | some (CVal.num q) => some q
  | _ => none

/-- Embedding of `idemGet` in the no-Redis configuration:
`memGet` under the `idem:` namespace. -/
def idemGet (m : MemMap) (now : ℤ) (key : String) : Option CVal :=
  (memGet m now ("idem:" ++ key)).1

/-- Embedding of `idemSet` in the no-Redis configuration: `memSet` under
the `idem:` namespace with the ttl converted from seconds to ms. -/
def idemSet (m : MemMap) (now : ℤ) (key : String) (invoiceUrl : String) (ttlSec : ℤ) : MemMap :=
  memSet m now ("idem:" ++ key) (CVal.idem invoiceUrl) (ttlSec * 1000)

/-! ### Batch price resolver (`getVariantPricesBatch`, server.js lines 196-218) -/

/-- Helper for `uniqFirst` carrying the set of already-seen keys. -/
def uniqFirstGo (seen : List String) : List String → List String
  | [] => []
  | x :: xs => if x ∈ seen then uniqFirstGo seen xs else x :: uniqFirstGo (x :: seen) xs

/-- Deduplication in iteration order, as `[...new Set(gids)]` does. -/
def uniqFirst : List String → List String := uniqFirstGo []

/-- The cache-probing loop of `getVariantPricesBatch`: partition the
deduplicated references into cache hits (with their prices) and misses,
preserving order. -/
def splitHits (m : MemMap) (now : ℤ) : List String → List (String × ℚ) × List String
  | [] => ([], [])
  | g :: rest =>
    let p := splitHits m now rest
    match cacheGetNum m now ("vprice:" ++ g) with
    | some q => ((g, q) :: p.1, p.2)
    | none => (p.1, g :: p.2)

/-- The response-consuming loop of `getVariantPricesBatch`: for each miss,
in order, take the upstream node for that reference; a missing node aborts
with the `Variant not found` error (cache writes made for earlier
references are kept), otherwise record the price and cache it with a
600 s ttl. -/
def resolveMissing (read : String → Option ℚ) (now : ℤ) :
    List String → MemMap → Except String (List (String × ℚ)) × MemMap
  | [], m => (Except.ok [], m)
  | g :: rest, m =>
    match read g with
    | none => (Except.error ("Variant not found: " ++ g), m)
    | some p =>
      let m1 := memSet m now ("vprice:" ++ g) (CVal.num p) 600000
      match resolveMissing read now rest m1 with
      | (Except.error e, m2) => (Except.error e, m2)
      | (Except.ok ps, m2) => (Except.ok ((g, p) :: ps), m2)

/-- Embedding of `getVariantPricesBatch`.  `read` gives, per requested
reference, the node returned by the single batched upstream query (`none`
when the response omits it).  The second component of the result lists the
upstream read calls issued, each identified by the set of references it
covers. -/
def getVariantPricesBatch (gids : List String) (m : MemMap) (now : ℤ)
    (read : String → Option ℚ) :
    Except String (List (String × ℚ)) × List (List String) × MemMap :=
  let uniq := uniqFirst gids
  let hm := splitHits m now uniq
  if hm.2.isEmpty then (Except.ok hm.1, [], m)
  else
    match resolveMissing read now hm.2 m with
    | (Except.error e, m2) => (Except.error e, [hm.2], m2)
    | (Except.ok ps, m2) => (Except.ok (hm.1 ++ ps), [hm.2], m2)

/-! ### Upstream client with retry (`withBackoff`, `adminGQL`, server.js lines 123-152) -/

/-- A JavaScript `Error` as thrown inside `adminGQL`: a message plus the
optional `retryable` flag (absent = `false`). -/
structure JsErr where
  message : String
  retryable : Bool
deriving DecidableEq

/-- Does the transient-error signature `rate`, `429` or `5` followed by
two digits match at the head of the character list? -/
def matchHere : List Char → Bool
  | 'r' :: 'a' :: 't' :: 'e' :: _ => true
  | '4' :: '2' :: '9' :: _ => true
  | '5' :: d1 :: d2 :: _ => d1.isDigit && d2.isDigit
  | _ => false

/-- Substring search for the transient-error signature. -/
def hasTransient : List Char → Bool
  | [] => false
  | c :: rest => matchHere (c :: rest) || hasTransient rest

/-- The test `/rate|429|5\d\d/i.test(message)` from `withBackoff`. -/
def isTransientMsg (s : String) : Bool := hasTransient (jsToLower s).data

/-- The retry loop of `withBackoff`.  `i` is the index of the current
attempt, the fuel is the number of attempts still allowed including the
current one; the second component of the result counts attempts actually
made.  An error whose message does not match the transient signature and
whose `retryable` flag is unset breaks the loop. -/
def wbGo (fn : ℕ → Except JsErr α) (i : ℕ) : ℕ → Except JsErr α × ℕ
  | 0 => (Except.error ⟨"", false⟩, i)
  | fuel + 1 =>
    match fn i with
    | Except.ok a => (Except.ok a, i + 1)
    | Except.error e =>
      if fuel = 0 then (Except.error e, i + 1)
      else if isTransientMsg e.message = false ∧ e.retryable = false then
        (Except.error e, i + 1)
      else wbGo fn (i + 1) fuel

/-- Embedding of `withBackoff(fn, {tries})`: run up to `tries` attempts;
return the first success or the last error, together with the number of
attempts consumed. -/
def withBackoff (fn : ℕ → Except JsErr α) (tries : ℕ) : Except JsErr α × ℕ :=
  wbGo fn 0 tries

/-- One HTTP response from the upstream GraphQL endpoint: status line plus
the parsed body (application-level error list and data payload). -/
structure HttpResp (α : Type) where
  status : ℕ
  statusText : String
  errors : List String
  data : α
deriving DecidableEq

/-- The body of one `adminGQL` attempt: 429 becomes a retryable error,
any other non-2xx status an error retryable exactly when it is 5xx, a
successful status with a non-empty `errors` array throws the first
message, otherwise the data is returned. -/
def adminAttempt (r : HttpResp α) : Except JsErr α :=
  if r.status = 429 then Except.error ⟨"429 rate limited", true⟩
  else if r.status < 200 ∨ 300 ≤ r.status then
    Except.error ⟨Nat.repr r.status ++ " " ++ r.statusText, 500 ≤ r.status⟩
  else
    match r.errors with
    | e :: _ => Except.error ⟨e, false⟩
    | [] => Except.ok r.data

/-- Embedding of `adminGQL`: `withBackoff` with 3 tries over the sequence
of HTTP responses the upstream returns to successive attempts. -/
def adminGQL (resps : ℕ → HttpResp α) : Except JsErr α × ℕ :=
  withBackoff (fun i => adminAttempt (resps i)) 3

/-! ### Route handler (`app.post /create-draft-order`, server.js lines 222-332)

The request body, the normalized line shape, the line-item builder and
the orchestration logic, with the upstream read and write modelled as
oracles and all calls recorded in a trace. -/

/-- One entry of the request's `items` array, after JSON parsing.
`quantity` is the `parseInt` result (`none` = `NaN`), `unitPriceCents`
the client-asserted price when it is a finite number. -/
structure OrderItemReq where
  variantId : String
  quantity : Option ℤ
  grade : Option String
  cording : Bool
  fabricName : Option String
  properties : Option (List (String × String))
  unitPriceCents : Option ℚ
deriving DecidableEq

/-- The request body of `POST /create-draft-order`.  `prevDraftId` is
carried to record what a client may send; the handler code never reads
it. -/
structure ReqBody where
  items : List OrderItemReq
  note : Option String
  tags : List String
  idempotencyKey : Option String
  prevDraftId : Option String
deriving DecidableEq

/-- A normalized order line, the element type of `lines`. -/
structure Line where
  gid : String
  quantity : ℤ
  grade : String
  cording : Bool
  fabricName : String
  properties : List (String × String)
  unitPriceCents : Option ℚ
deriving DecidableEq

/-- Normalization of `variantId` to global-id form. -/
def toGid (v : String) : String :=
  if strStartsWith v "gid://" then v else "gid://shopify/ProductVariant/" ++ v

/-- Embedding of `Math.max(1, parseInt(it.quantity, 10) || 1)`. -/
def normQuantity (q : Option ℤ) : ℤ :=
  max 1 (match q with
    | none => 1
    | some n => if n = 0 then 1 else n)

/-- Embedding of `String(it.grade || 'A').toUpperCase()`. -/
def normGrade (g : Option String) : String :=
  jsToUpper (match g with
    | none => "A"
    | some s => if s = "" then "A" else s)

/-- Embedding of the per-item normalization building `lines`. -/
def normalizeLine (it : OrderItemReq) : Line :=
  { gid := toGid it.variantId
    quantity := normQuantity it.quantity
    grade := normGrade it.grade
    cording := it.cording
    fabricName := it.fabricName.getD ""
    properties := it.properties.getD []
    unitPriceCents := it.unitPriceCents }

/-- Embedding of the `looksFabric` test: a non-empty fabric name, or a
property whose key fully matches `Fabric` or `Selected Fabric Name`
case-insensitively. -/
def looksFabric (l : Line) : Bool :=
  l.fabricName ≠ "" ||
    l.properties.any (fun p =>
      jsToUpper p.1 = "FABRIC" || jsToUpper p.1 = "SELECTED FABRIC NAME")

/-- The unit price used for the line: the client-asserted price when the
line looks fabric-priced and a positive finite `unitPriceCents` is
present, else the computed price. -/
def finalUnitOf (l : Line) (fPrice : ℚ) : ℚ :=
  let computed := computeUnitPriceFromF fPrice l.grade l.cording
  match l.unitPriceCents with
  | some c => if looksFabric l ∧ 0 < c then c / 100 else computed
  | none => computed

/-- The `appliedDiscount` object of a catalog-reference line. -/
structure Discount where
  title : String
  valueType : String
  value : ℚ
deriving DecidableEq

/-- A line item sent to the upstream draft-order mutation: either a
catalog-reference line (`variantId`, optional discount) or a fully custom
line (`custom: true`, `originalUnitPrice`). -/
inductive LineItem where
  | catalog (variantId : String) (quantity : ℤ) (appliedDiscount : Option Discount)
      (customAttributes : List (String × String))
  | custom (title : String) (quantity : ℤ) (originalUnitPrice : ℚ)
      (customAttributes : List (String × String))
deriving DecidableEq

/-- The fixed descriptive attributes plus the passthrough properties. -/
def attrsOf (l : Line) : List (String × String) :=
  ("Fabric", l.fabricName) :: ("Grade", l.grade) ::
    ("Cording", if l.cording then "Yes" else "No") :: l.properties

/-- Embedding of the per-line branch of the `lineItems` construction:
look up the resolved base price (0 when absent), choose the unit price,
and emit either a discounted catalog-reference line or a custom line. -/
def lineItemOf (priceMap : List (String × ℚ)) (l : Line) : LineItem :=
  let fPrice := (List.lookup l.gid priceMap).getD 0
  let unit := finalUnitOf l fPrice
  if unit ≤ fPrice then
    let off := fPrice - unit
    LineItem.catalog l.gid l.quantity
      (if 0 < off then some ⟨"DISCOUNT", "FIXED_AMOUNT", toFixed2 off⟩ else none)
      (attrsOf l)
  else
    LineItem.custom (if l.fabricName ≠ "" then l.fabricName else "Custom item")
      l.quantity (toFixed2 unit) (attrsOf l)

/-- The `input` argument of the draft-order mutation. -/
structure DraftOrderInput where
  lineItems : List LineItem
  note : String
  tags : List String
deriving DecidableEq

/-- An upstream write call.  The source only ever issues
`draftOrderCreate`; the `update` form exists in the model so that
statements about a draft-order update call can be expressed. -/
inductive WriteCall where
  | create (input : DraftOrderInput)
  | update (id : String) (input : DraftOrderInput)
deriving DecidableEq

/-- Is the write call a draft-order update? -/
def WriteCall.isUpdate : WriteCall → Bool
  | WriteCall.create _ => false
  | WriteCall.update _ _ => true

/-- The draft order returned by the upstream mutation. -/
structure Draft where
  id : String
  invoiceUrl : String
deriving DecidableEq

/-- The `draftOrderCreate` payload of the mutation response. -/
structure WriteResp where
  userErrors : List String
  draftOrder : Option Draft
deriving DecidableEq

/-- Everything observable about one handler run: the HTTP result (a JSON
object as key/value pairs, or the error message sent with status 400),
the upstream read calls, the upstream write calls, and the final state of
the process-local map. -/
structure Trace where
  result : Except String (List (String × String))
  readCalls : List (List String)
  writeCalls : List WriteCall
  finalMap : MemMap

/-- The idempotency short-circuit: with a truthy key whose stored record
has a truthy `invoiceUrl`, return that url. -/
def idemHit (key : Option String) (m : MemMap) (now : ℤ) : Option String :=
  match key with
  | none => none
  | some k =>
    if k = "" then none
    else
      match idemGet m now k with
      | some (CVal.idem u) => if u = "" then none else some u
      | _ => none

/-- Embedding of `note || 'Fabric tool'`. -/
def noteOf (note : Option String) : String :=
  match note with
  | some s => if s = "" then "Fabric tool" else s
  | none => "Fabric tool"

/-- Embedding of the `/create-draft-order` handler: validate the item
list, check the idempotency store, normalize the lines, resolve prices,
build the line items, issue the create mutation, check its error list and
invoice url, record the result under the idempotency key, and reply with
`{ invoiceUrl }`. -/
def handle (b : ReqBody) (m : MemMap) (now : ℤ) (read : String → Option ℚ)
    (write : DraftOrderInput → WriteResp) : Trace :=
  if b.items.isEmpty then ⟨Except.error "No items", [], [], m⟩
  else
    match idemHit b.idempotencyKey m now with
    | some u => ⟨Except.ok [("invoiceUrl", u)], [], [], m⟩
    | none =>
      let lines := b.items.map normalizeLine
      match getVariantPricesBatch (lines.map Line.gid) m now read with
      | (Except.error e, calls, m1) => ⟨Except.error e, calls, [], m1⟩
      | (Except.ok priceMap, calls, m1) =>
        let input : DraftOrderInput :=
          ⟨lines.map (lineItemOf priceMap), noteOf b.note, "fabric-tool" :: b.tags⟩
        let resp := write input
        match resp.userErrors with
        | eMsg :: _ => ⟨Except.error eMsg, calls, [WriteCall.create input], m1⟩
        | [] =>
          match resp.draftOrder with
          | none => ⟨Except.error "No invoiceUrl returned", calls, [WriteCall.create input], m1⟩
          | some d =>
            if d.invoiceUrl = "" then
              ⟨Except.error "No invoiceUrl returned", calls, [WriteCall.create input], m1⟩
            else
              match b.idempotencyKey with
              | some k =>
                if k = "" then
                  ⟨Except.ok [("invoiceUrl", d.invoiceUrl)], calls,
                    [WriteCall.create input], m1⟩
                else
                  ⟨Except.ok [("invoiceUrl", d.invoiceUrl)], calls,
                    [WriteCall.create input], idemSet m1 now k d.invoiceUrl 600⟩
              | none =>
                ⟨Except.ok [("invoiceUrl", d.invoiceUrl)], calls,
                  [WriteCall.create input], m1⟩

/-! ### Claim C2 -/

/-- Claim C2, counterexample: the claim applies the upcharge table to the
grade argument directly, but the code uppercases the grade first, so for
the lowercase grade string `c` with base price 206 the code yields 108
(8 percent C upcharge) while the claimed formula yields 100 (unknown key,
0 upcharge). -/
theorem c2_counterexample :
    computeUnitPriceFromF 206 "c" false ≠ claimedUnitPrice 206 "c" false := by
  have h1 : computeUnitPriceFromF 206 "c" false = 108 := by
    have hg : jsToUpper "c" = "C" := by decide
    simp only [computeUnitPriceFromF, hg, gradeUpcharge, F_MULTIPLIER]
    simp
    norm_num [jsRound, Int.floor_eq_iff]
  have h2 : claimedUnitPrice 206 "c" false = 100 := by
    simp only [claimedUnitPrice, gradeUpcharge, F_MULTIPLIER]
    simp
    norm_num [jsRound, Int.floor_eq_iff]
  rw [h1, h2]
  norm_num

/-- Claim C2, amended: for every base price, grade, and corded flag, the
unit price equals round((basePrice / 2.06) x (1 + upcharge[grade
uppercased]) x (corded ? 1.10 : 1) x 100) / 100, where upcharge is the
fixed table A:0, B:0, C:0.08, D:0.32, E:0.63, F:1.06, a key outside the
table contributes 0, and rounding is on the cent boundary; the function
is a pure function of its arguments. -/
theorem c2_unit_price_amended (fPrice : ℚ) (grade : String) (cording : Bool) :
    computeUnitPriceFromF fPrice grade cording =
      claimedUnitPrice fPrice (jsToUpper grade) cording := by
  simp only [computeUnitPriceFromF, claimedUnitPrice]
  cases cording <;> simp

/-! ### Claim C9 -/

/-- Claim C9, counterexample: at the state holding the single entry for
key `k` with expiry 5, a `memGet` at time 10 returns absent but leaves
the expired entry in the map, so the read does not purge it as the claim
asserts. -/
theorem c9_counterexample :
    (memGet [("k", ⟨CVal.num 1, 5⟩)] 10 "k").1 = none ∧
      (memGet [("k", ⟨CVal.num 1, 5⟩)] 10 "k").2 = [("k", ⟨CVal.num 1, 5⟩)] ∧
      "k" ∈ ((memGet [("k", ⟨CVal.num 1, 5⟩)] 10 "k").2.map Prod.fst) := by
  refine ⟨rfl, rfl, ?_⟩
  simp [memGet]

/-- Claim C9, amended: for every key whose entry's expiry has passed, a
get on that key returns absent (the read never fails), and the map is
left unchanged — the expired entry is not purged. -/
theorem c9_expired_get_amended (m : MemMap) (now : ℤ) (k : String) (e : CacheEntry)
    (hlk : List.lookup k m = some e) (hexp : e.exp < now) :
    memGet m now k = (none, m) := by
  unfold memGet
  rw [hlk]
  simp only [if_pos hexp]

/-- Claim C9 witness: the amended theorem applied at the concrete expired
entry of the counterexample state. -/
theorem c9_expired_get_amended_witness :
    memGet [("k", ⟨CVal.num 1, 5⟩)] 10 "k" = (none, [("k", ⟨CVal.num 1, 5⟩)]) :=
  c9_expired_get_amended [("k", ⟨CVal.num 1, 5⟩)] 10 "k" ⟨CVal.num 1, 5⟩ rfl (by norm_num)

/-! ### Claim C8 -/

/-- Claim C8, counterexample: an upstream response with HTTP status 200
whose application-level error list is `rate limited by app` is not
surfaced immediately — the message matches the transient signature
`rate|429|5dd`, so the retry loop consumes all 3 attempts instead of the
claimed 1; the surfaced error does use the first reported message. -/
theorem c8_counterexample :
    adminGQL (fun _ => (⟨200, "OK", ["rate limited by app"], 0⟩ : HttpResp ℕ)) =
      (Except.error ⟨"rate limited by app", false⟩, 3) ∧ (3 : ℕ) ≠ 1 :=
  ⟨rfl, by norm_num⟩

/-- Claim C8, amended: for every upstream call whose HTTP status is
successful but whose response carries a non-empty application-level error
list, the client raises an error using the first reported message; it is
surfaced after the single initial attempt, with no retry, provided that
message does not match the transient-error signature `rate|429|5dd`
(case-insensitive). -/
theorem c8_app_error_amended (α : Type) (resps : ℕ → HttpResp α) (e : String)
    (es : List String) (h2 : 200 ≤ (resps 0).status) (h3 : (resps 0).status < 300)
    (herr : (resps 0).errors = e :: es) (ht : isTransientMsg e = false) :
    adminGQL resps = (Except.error ⟨e, false⟩, 1) := by
  have ha : adminAttempt (resps 0) = Except.error ⟨e, false⟩ := by
    unfold adminAttempt
    rw [if_neg (by omega : ¬ (resps 0).status = 429),
      if_neg (by omega : ¬ ((resps 0).status < 200 ∨ 300 ≤ (resps 0).status)), herr]
  simp only [adminGQL, withBackoff, wbGo, ha, ht]
  simp

/-- Claim C8 witness: a 200 response carrying the application-level error
`bad input` is surfaced as that error after exactly one attempt. -/
theorem c8_app_error_amended_witness :
    adminGQL (fun _ => (⟨200, "OK", ["bad input"], 0⟩ : HttpResp ℕ)) =
      (Except.error ⟨"bad input", false⟩, 1) :=
  c8_app_error_amended ℕ (fun _ => ⟨200, "OK", ["bad input"], 0⟩) "bad input" []
    (by norm_num) (by norm_num) rfl (by decide)

/-! ### Resolver lemmas -/

theorem uniqFirstGo_mem (a : String) :
    ∀ (xs seen : List String), a ∈ uniqFirstGo seen xs ↔ (a ∈ xs ∧ a ∉ seen) := by
  intro xs
  induction xs with
  | nil => intro seen; simp [uniqFirstGo]
  | cons x xs ih =>
    intro seen
    by_cases hx : x ∈ seen
    · rw [uniqFirstGo, if_pos hx, ih]
      constructor
      · rintro ⟨h1, h2⟩; exact ⟨List.mem_cons_of_mem _ h1, h2⟩
      · rintro ⟨h1, h2⟩
        rcases List.mem_cons.mp h1 with rfl | h1
        · exact absurd hx h2
        · exact ⟨h1, h2⟩
    · rw [uniqFirstGo, if_neg hx]
      simp only [List.mem_cons, ih]
      constructor
      · rintro (rfl | ⟨h1, h2⟩)
        · exact ⟨Or.inl rfl, hx⟩
        · exact ⟨Or.inr h1, fun hs => h2 (Or.inr hs)⟩
      · rintro ⟨rfl | h1, h2⟩
        · exact Or.inl rfl
        · by_cases hax : a = x
          · exact Or.inl hax
          · exact Or.inr ⟨h1, by simp [List.mem_cons, hax, h2]⟩

theorem uniqFirst_mem (a : String) (gids : List String) :
    a ∈ uniqFirst gids ↔ a ∈ gids := by
  rw [uniqFirst, uniqFirstGo_mem]
  simp

theorem uniqFirstGo_nodup : ∀ (xs seen : List String), (uniqFirstGo seen xs).Nodup := by
  intro xs
  induction xs with
  | nil => intro seen; simp [uniqFirstGo]
  | cons x xs ih =>
    intro seen
    by_cases hx : x ∈ seen
    · rw [uniqFirstGo, if_pos hx]; exact ih seen
    · rw [uniqFirstGo, if_neg hx]
      refine List.nodup_cons.mpr ⟨?_, ih (x :: seen)⟩
      intro hmem
      exact ((uniqFirstGo_mem x xs (x :: seen)).mp hmem).2 (List.mem_cons_self x seen)

theorem splitHits_misses (m : MemMap) (now : ℤ) : ∀ xs : List String,
    (splitHits m now xs).2 =
      xs.filter (fun g => (cacheGetNum m now ("vprice:" ++ g)).isNone) := by
  intro xs
  induction xs with
  | nil => simp [splitHits]
  | cons g rest ih =>
    rw [splitHits]
    cases hg : cacheGetNum m now ("vprice:" ++ g) <;>
      simp [List.filter_cons, hg, ih]

theorem splitHits_cover (m : MemMap) (now : ℤ) : ∀ xs : List String, ∀ g ∈ xs,
    (∃ q, List.lookup g (splitHits m now xs).1 = some q) ∨ g ∈ (splitHits m now xs).2 := by
  intro xs
  induction xs with
  | nil => intro g hg; simp at hg
  | cons x rest ih =>
    intro g hg
    rw [splitHits]
    cases hx : cacheGetNum m now ("vprice:" ++ x) with
    | some q =>
      by_cases hgx : g = x
      · subst hgx; left; exact ⟨q, by simp [List.lookup]⟩
      · have hbeq : (g == x) = false := beq_eq_false_iff_ne.mpr hgx
        rcases List.mem_cons.mp hg with rfl | hg'
        · exact absurd rfl hgx
        · rcases ih g hg' with ⟨q', hq'⟩ | hm
          · left
            exact ⟨q', by simp only [List.lookup, hbeq, hq']⟩
          · right; exact hm
    | none =>
      by_cases hgx : g = x
      · subst hgx; right; exact List.mem_cons_self _ _
      · rcases List.mem_cons.mp hg with rfl | hg'
        · exact absurd rfl hgx
        · rcases ih g hg' with h | hm
          · left; exact h
          · right; exact List.mem_cons_of_mem _ hm

theorem resolveMissing_ok_lookup (read : String → Option ℚ) (now : ℤ) :
    ∀ (ms : List String) (m m' : MemMap) (ps : List (String × ℚ)),
      resolveMissing read now ms m = (Except.ok ps, m') →
      ∀ g ∈ ms, ∃ q, List.lookup g ps = some q := by
  intro ms
  induction ms with
  | nil => intro m m' ps h g hg; simp at hg
  | cons x rest ih =>
    intro m m' ps h g hg
    cases hr : read x with
    | none => simp [resolveMissing, hr] at h
    | some p =>
      simp only [resolveMissing, hr] at h
      rcases hrec : resolveMissing read now rest
          (memSet m now ("vprice:" ++ x) (CVal.num p) 600000) with ⟨res, m2⟩
      rw [hrec] at h
      cases res with
      | error e => simp at h
      | ok ps' =>
        simp only [Prod.mk.injEq, Except.ok.injEq] at h
        obtain ⟨hps, hm⟩ := h
        by_cases hgx : g = x
        · subst hgx; exact ⟨p, by simp [← hps, List.lookup]⟩
        · have hbeq : (g == x) = false := beq_eq_false_iff_ne.mpr hgx
          rcases List.mem_cons.mp hg with rfl | hg'
          · exact absurd rfl hgx
          · obtain ⟨q, hq⟩ := ih _ _ _ hrec g hg'
            refine ⟨q, ?_⟩
            rw [← hps]
            simp only [List.lookup, hbeq, hq]

theorem resolveMissing_missing_error (read : String → Option ℚ) (now : ℤ) :
    ∀ (ms : List String) (m : MemMap),
      (∃ g ∈ ms, read g = none) →
      ∃ g ∈ ms, read g = none ∧
        (resolveMissing read now ms m).1 = Except.error ("Variant not found: " ++ g) := by
  intro ms
  induction ms with
  | nil => intro m h; simp at h
  | cons x rest ih =>
    intro m h
    cases hr : read x with
    | none =>
      refine ⟨x, List.mem_cons_self _ _, hr, ?_⟩
      simp [resolveMissing, hr]
    | some p =>
      have h' : ∃ g ∈ rest, read g = none := by
        rcases h with ⟨g, hg, hgr⟩
        rcases List.mem_cons.mp hg with rfl | hg'
        · rw [hr] at hgr; cases hgr
        · exact ⟨g, hg', hgr⟩
      obtain ⟨g, hg, hgr, hres⟩ :=
        ih (memSet m now ("vprice:" ++ x) (CVal.num p) 600000) h'
      refine ⟨g, List.mem_cons_of_mem _ hg, hgr, ?_⟩
      simp only [resolveMissing, hr]
      rcases hrec : resolveMissing read now rest
          (memSet m now ("vprice:" ++ x) (CVal.num p) 600000) with ⟨res, m2⟩
      rw [hrec] at hres
      cases res with
      | error e => simpa using hres
      | ok ps => simp at hres

theorem lookup_append_left {g : String} {l1 l2 : List (String × ℚ)} {q : ℚ}
    (h : List.lookup g l1 = some q) : List.lookup g (l1 ++ l2) = some q := by
  induction l1 with
  | nil => simp [List.lookup] at h
  | cons p rest ih =>
    obtain ⟨k, v⟩ := p
    rw [List.cons_append]
    rw [List.lookup] at h ⊢
    cases hk : (g == k)
    · rw [hk] at h; exact ih h
    · rw [hk] at h; exact h

theorem lookup_append_right {g : String} {l1 l2 : List (String × ℚ)}
    (h : List.lookup g l1 = none) : List.lookup g (l1 ++ l2) = List.lookup g l2 := by
  induction l1 with
  | nil => simp
  | cons p rest ih =>
    obtain ⟨k, v⟩ := p
    rw [List.cons_append]
    rw [List.lookup] at h ⊢
    cases hk : (g == k)
    · rw [hk] at h; exact ih h
    · rw [hk] at h; simp at h

theorem isEmpty_false_of_ne_nil {α : Type} {l : List α} (h : l ≠ []) : l.isEmpty = false := by
  cases l with
  | nil => exact absurd rfl h
  | cons a as => rfl

theorem nil_of_isEmpty {α : Type} {l : List α} (h : l.isEmpty = true) : l = [] := by
  cases l with
  | nil => rfl
  | cons a as => cases h

/-! ### Claim C3 -/

/-- Claim C3: the resolver deduplicates the requested references (the
deduplicated list has no duplicates and the same members), probes the
cache for each — the miss list is exactly the uncached deduplicated
references — and then issues zero upstream reads and returns the hit map
when there is no miss, and exactly one batched upstream read covering
precisely the miss list otherwise, whatever the number of misses. -/
theorem c3_batching (gids : List String) (m : MemMap) (now : ℤ)
    (read : String → Option ℚ) :
    (uniqFirst gids).Nodup ∧ (∀ g, g ∈ uniqFirst gids ↔ g ∈ gids) ∧
    (splitHits m now (uniqFirst gids)).2 =
      (uniqFirst gids).filter (fun g => (cacheGetNum m now ("vprice:" ++ g)).isNone) ∧
    ((splitHits m now (uniqFirst gids)).2 = [] →
      (getVariantPricesBatch gids m now read).2.1 = [] ∧
      (getVariantPricesBatch gids m now read).1 =
        Except.ok (splitHits m now (uniqFirst gids)).1) ∧
    ((splitHits m now (uniqFirst gids)).2 ≠ [] →
      (getVariantPricesBatch gids m now read).2.1 =
        [(splitHits m now (uniqFirst gids)).2]) := by
  refine ⟨uniqFirstGo_nodup gids [], fun g => uniqFirst_mem g gids,
    splitHits_misses m now (uniqFirst gids), ?_, ?_⟩
  · intro h
    simp only [getVariantPricesBatch]
    rw [h]
    simp
  · intro h
    simp only [getVariantPricesBatch]
    rw [isEmpty_false_of_ne_nil h]
    rcases hrec : resolveMissing read now (splitHits m now (uniqFirst gids)).2 m
      with ⟨res, m2⟩
    cases res <;> simp

/-- Claim C3 witness: with the single reference cached the resolver
issues no upstream read and returns the hit map; with two distinct
uncached references (requested with a duplicate) it issues exactly one
read covering both. -/
theorem c3_batching_witness :
    ((getVariantPricesBatch ["a"] [("vprice:a", ⟨CVal.num 5, 10⟩)] 0 (fun _ => none)).2.1 = [] ∧
      (getVariantPricesBatch ["a"] [("vprice:a", ⟨CVal.num 5, 10⟩)] 0 (fun _ => none)).1 =
        Except.ok [("a", 5)]) ∧
    (getVariantPricesBatch ["a", "a", "b"] [] 0 (fun _ => some 5)).2.1 = [["a", "b"]] := by
  constructor
  · have h := (c3_batching ["a"] [("vprice:a", ⟨CVal.num 5, 10⟩)] 0 (fun _ => none)).2.2.2.1
      (by decide)
    exact ⟨h.1, by rw [h.2]; rfl⟩
  · exact (c3_batching ["a", "a", "b"] [] 0 (fun _ => some 5)).2.2.2.2 (by decide)

/-! ### Claim C7 -/

/-- Claim C7: when the single batched upstream response omits a requested
uncached reference, the resolver fails with a `Variant not found` error
naming a missing reference; and whenever it succeeds, every requested
reference appears in the returned price map. -/
theorem c7_missing_reference (gids : List String) (m : MemMap) (now : ℤ)
    (read : String → Option ℚ) :
    ((∃ g ∈ (splitHits m now (uniqFirst gids)).2, read g = none) →
      ∃ g ∈ (splitHits m now (uniqFirst gids)).2, read g = none ∧
        (getVariantPricesBatch gids m now read).1 =
          Except.error ("Variant not found: " ++ g)) ∧
    (∀ ps, (getVariantPricesBatch gids m now read).1 = Except.ok ps →
      ∀ g ∈ gids, ∃ q, List.lookup g ps = some q) := by
  constructor
  · intro h
    have hne : (splitHits m now (uniqFirst gids)).2 ≠ [] := by
      rcases h with ⟨g, hg, _⟩
      intro hnil
      rw [hnil] at hg
      simp at hg
    obtain ⟨g, hg, hgr, hres⟩ := resolveMissing_missing_error read now
      (splitHits m now (uniqFirst gids)).2 m h
    refine ⟨g, hg, hgr, ?_⟩
    simp only [getVariantPricesBatch]
    rw [isEmpty_false_of_ne_nil hne]
    rcases hrec : resolveMissing read now (splitHits m now (uniqFirst gids)).2 m
      with ⟨res, m2⟩
    rw [hrec] at hres
    cases res with
    | error e => simpa using hres
    | ok ps => simp at hres
  · intro ps hok g hg
    have hgu : g ∈ uniqFirst gids := (uniqFirst_mem g gids).mpr hg
    have hcov := splitHits_cover m now (uniqFirst gids) g hgu
    simp only [getVariantPricesBatch] at hok
    cases hEmpty : (splitHits m now (uniqFirst gids)).2.isEmpty with
    | true =>
      rw [hEmpty] at hok
      simp at hok
      rcases hcov with ⟨q, hq⟩ | hm
      · exact ⟨q, by rw [← hok]; exact hq⟩
      · rw [nil_of_isEmpty hEmpty] at hm
        simp at hm
    | false =>
      rw [hEmpty] at hok
      simp only [Bool.false_eq_true, if_false] at hok
      rcases hrec : resolveMissing read now (splitHits m now (uniqFirst gids)).2 m
        with ⟨res, m2⟩
      rw [hrec] at hok
      cases res with
      | error e => simp at hok
      | ok rps =>
        simp only [Except.ok.injEq] at hok
        rcases hcov with ⟨q, hq⟩ | hm
        · exact ⟨q, by rw [← hok]; exact lookup_append_left hq⟩
        · obtain ⟨q, hq⟩ := resolveMissing_ok_lookup read now _ m m2 rps hrec g hm
          rcases hhit : List.lookup g (splitHits m now (uniqFirst gids)).1 with _ | q'
          · exact ⟨q, by rw [← hok, lookup_append_right hhit]; exact hq⟩
          · exact ⟨q', by rw [← hok]; exact lookup_append_left hhit⟩

/-- Claim C7 witness: an uncached reference omitted by the upstream
response yields the naming error, and a successfully resolved request has
its reference present in the returned map. -/
theorem c7_missing_reference_witness :
    (∃ g ∈ (splitHits [] 0 (uniqFirst ["a"])).2, (fun _ => (none : Option ℚ)) g = none ∧
      (getVariantPricesBatch ["a"] [] 0 (fun _ => none)).1 =
        Except.error ("Variant not found: " ++ g)) ∧
    (∃ q, List.lookup "b" [("b", (7 : ℚ))] = some q) :=
  ⟨(c7_missing_reference ["a"] [] 0 (fun _ => none)).1 ⟨"a", by decide, rfl⟩,
    (c7_missing_reference ["b"] [] 0 (fun _ => some 7)).2 [("b", 7)] rfl "b" (by decide)⟩

/-! ### Claim C1 -/

theorem computeUnitPriceFromF_cents (f : ℚ) (g : String) (c : Bool) :
    ∃ k : ℤ, computeUnitPriceFromF f g c = (k : ℚ) / 100 := by
  unfold computeUnitPriceFromF
  exact ⟨_, rfl⟩

theorem exists_int_finalUnit (l : Line) (f : ℚ)
    (hc : ∀ c, l.unitPriceCents = some c → ∃ n : ℤ, c = (n : ℚ)) :
    ∃ k : ℤ, finalUnitOf l f = (k : ℚ) / 100 := by
  unfold finalUnitOf
  cases hcc : l.unitPriceCents with
  | none =>
    dsimp only
    exact computeUnitPriceFromF_cents f l.grade l.cording
  | some c =>
    dsimp only
    by_cases hbr : looksFabric l = true ∧ 0 < c
    · rw [if_pos hbr]
      obtain ⟨n, rfl⟩ := hc c hcc
      exact ⟨n, rfl⟩
    · rw [if_neg hbr]
      exact computeUnitPriceFromF_cents f l.grade l.cording

/-- Claim C1: for every order line, with basePrice the resolved catalog
price (a whole number of cents) and finalPrice the chosen unit price
(client-asserted when the line looks custom-priced and a positive integer
client cent price is present, else the computed price): when
finalPrice ≤ basePrice the builder emits a catalog-reference line with
the itemRef, quantity and a per-unit fixed-amount discount of
basePrice − finalPrice, omitted when the difference is zero; when
finalPrice > basePrice it emits a custom line with no catalog reference,
originalUnitPrice = finalPrice, carrying the label (or the fixed default
when the label is empty) and the quantity. -/
theorem c1_line_builder (priceMap : List (String × ℚ)) (l : Line)
    (hb : ∃ n : ℤ, (List.lookup l.gid priceMap).getD 0 = (n : ℚ) / 100)
    (hc : ∀ c, l.unitPriceCents = some c → ∃ n : ℤ, c = (n : ℚ)) :
    (finalUnitOf l ((List.lookup l.gid priceMap).getD 0) ≤
        (List.lookup l.gid priceMap).getD 0 →
      lineItemOf priceMap l = LineItem.catalog l.gid l.quantity
        (if (List.lookup l.gid priceMap).getD 0 -
            finalUnitOf l ((List.lookup l.gid priceMap).getD 0) = 0 then none
         else some ⟨"DISCOUNT", "FIXED_AMOUNT",
           (List.lookup l.gid priceMap).getD 0 -
             finalUnitOf l ((List.lookup l.gid priceMap).getD 0)⟩)
        (attrsOf l)) ∧
    ((List.lookup l.gid priceMap).getD 0 <
        finalUnitOf l ((List.lookup l.gid priceMap).getD 0) →
      lineItemOf priceMap l = LineItem.custom
        (if l.fabricName ≠ "" then l.fabricName else "Custom item") l.quantity
        (finalUnitOf l ((List.lookup l.gid priceMap).getD 0)) (attrsOf l)) := by
  obtain ⟨n, hbase⟩ := hb
  obtain ⟨k, hfin⟩ := exists_int_finalUnit l ((List.lookup l.gid priceMap).getD 0) hc
  have hsub : (List.lookup l.gid priceMap).getD 0 -
      finalUnitOf l ((List.lookup l.gid priceMap).getD 0) = ((n - k : ℤ) : ℚ) / 100 := by
    rw [hfin, hbase]
    push_cast
    ring
  constructor
  · intro hle
    unfold lineItemOf
    dsimp only
    rw [if_pos hle]
    congr 1
    have htf : toFixed2 ((List.lookup l.gid priceMap).getD 0 -
        finalUnitOf l ((List.lookup l.gid priceMap).getD 0)) =
        (List.lookup l.gid priceMap).getD 0 -
          finalUnitOf l ((List.lookup l.gid priceMap).getD 0) := by
      rw [hsub]
      exact toFixed2_cents _
    by_cases h0 : (List.lookup l.gid priceMap).getD 0 -
        finalUnitOf l ((List.lookup l.gid priceMap).getD 0) = 0
    · rw [h0]
      norm_num
    · have hpos : 0 < (List.lookup l.gid priceMap).getD 0 -
          finalUnitOf l ((List.lookup l.gid priceMap).getD 0) := by
        rcases lt_or_eq_of_le (sub_nonneg.mpr hle) with h | h
        · exact h
        · exact absurd h.symm h0
      rw [if_pos hpos, if_neg h0, htf]
  · intro hlt
    unfold lineItemOf
    dsimp only
    rw [if_neg (not_le.mpr hlt)]
    rw [hfin, toFixed2_cents]

/-- Claim C1 witness: a fabric-named line with client price 10000 cents
against base price 206 becomes a catalog line discounted by 106 per unit,
and an unnamed grade-F corded line against base price 50 computes to 55
and becomes a custom line at originalUnitPrice 55. -/
theorem c1_line_builder_witness :
    lineItemOf [("g", (206 : ℚ))] ⟨"g", 2, "B", false, "Linen", [], some 10000⟩ =
      LineItem.catalog "g" 2 (some ⟨"DISCOUNT", "FIXED_AMOUNT", 106⟩)
        [("Fabric", "Linen"), ("Grade", "B"), ("Cording", "No")] ∧
    lineItemOf [("h", (50 : ℚ))] ⟨"h", 1, "F", true, "", [], none⟩ =
      LineItem.custom "Custom item" 1 55
        [("Fabric", ""), ("Grade", "F"), ("Cording", "Yes")] := by
  have hfinA : finalUnitOf ⟨"g", 2, "B", false, "Linen", [], some 10000⟩
      ((List.lookup "g" [("g", (206 : ℚ))]).getD 0) = 100 := by
    simp [finalUnitOf, looksFabric, List.lookup]
    norm_num
  have hfinB : finalUnitOf ⟨"h", 1, "F", true, "", [], none⟩
      ((List.lookup "h" [("h", (50 : ℚ))]).getD 0) = 55 := by
    have hg : jsToUpper "F" = "F" := by decide
    simp [finalUnitOf, computeUnitPriceFromF, hg, gradeUpcharge, F_MULTIPLIER,
      List.lookup]
    norm_num [jsRound, Int.floor_eq_iff]
  constructor
  · have h := (c1_line_builder [("g", (206 : ℚ))]
        ⟨"g", 2, "B", false, "Linen", [], some 10000⟩
        ⟨20600, by simp [List.lookup]; norm_num⟩
        (fun c hcc => ⟨10000, by injection hcc with h; rw [← h]; norm_num⟩)).1
      (by rw [hfinA]; simp [List.lookup]; norm_num)
    rw [h, hfinA]
    simp [List.lookup, attrsOf]
    norm_num
  · have h := (c1_line_builder [("h", (50 : ℚ))]
        ⟨"h", 1, "F", true, "", [], none⟩
        ⟨5000, by simp [List.lookup]; norm_num⟩
        (fun c hcc => absurd hcc (by simp))).2
      (by rw [hfinB]; simp [List.lookup]; norm_num)
    rw [h, hfinB]
    simp [List.lookup, attrsOf]

/-! ### Handler lemmas -/

theorem handle_idem_hit (b : ReqBody) (m : MemMap) (now : ℤ)
    (read : String → Option ℚ) (write : DraftOrderInput → WriteResp)
    (k u : String) (e : ℤ) (hitems : b.items ≠ [])
    (hkey : b.idempotencyKey = some k) (hk : k ≠ "")
    (hlk : List.lookup ("idem:" ++ k) m = some ⟨CVal.idem u, e⟩)
    (hexp : ¬ e < now) (hu : u ≠ "") :
    handle b m now read write = ⟨Except.ok [("invoiceUrl", u)], [], [], m⟩ := by
  have hhit : idemHit b.idempotencyKey m now = some u := by
    rw [hkey]
    simp only [idemHit, idemGet, memGet, hlk, if_neg hexp, if_neg hk]
    simp [hu]
  unfold handle
  rw [isEmpty_false_of_ne_nil hitems]
  simp only [Bool.false_eq_true, if_false, hhit]

/-! ### Claim C4 -/

/-- Claim C4: for every request (with a non-empty item list) whose
idempotency key has a recorded, unexpired successful result, the handler
returns exactly the recorded invoice url, issuing no upstream read and no
upstream write and leaving the state unchanged; and every successful run
that issued the create records its returned invoice url under the
supplied key with the 600 s ttl. -/
theorem c4_idempotency (b : ReqBody) (m : MemMap) (now : ℤ)
    (read : String → Option ℚ) (write : DraftOrderInput → WriteResp)
    (k : String) (hkey : b.idempotencyKey = some k) (hk : k ≠ "") :
    (∀ u e, b.items ≠ [] →
      List.lookup ("idem:" ++ k) m = some ⟨CVal.idem u, e⟩ → ¬ e < now → u ≠ "" →
      handle b m now read write = ⟨Except.ok [("invoiceUrl", u)], [], [], m⟩) ∧
    (∀ r, (handle b m now read write).writeCalls ≠ [] →
      (handle b m now read write).result = Except.ok r →
      ∃ u, r = [("invoiceUrl", u)] ∧
        List.lookup ("idem:" ++ k) (handle b m now read write).finalMap =
          some ⟨CVal.idem u, now + 600 * 1000⟩) := by
  constructor
  · intro u e hitems hlk hexp hu
    exact handle_idem_hit b m now read write k u e hitems hkey hk hlk hexp hu
  · intro r
    unfold handle
    rw [hkey]
    cases hie : b.items.isEmpty with
    | true => intro hwc hres; simp at hwc
    | false =>
      simp only [Bool.false_eq_true, if_false]
      cases hhit : idemHit (some k) m now with
      | some u => intro hwc hres; simp at hwc
      | none =>
        dsimp only
        rcases hgv : getVariantPricesBatch
            (List.map Line.gid (List.map normalizeLine b.items)) m now read
          with ⟨res, calls, m1⟩
        cases res with
        | error e => intro hwc hres; simp at hwc
        | ok priceMap =>
          dsimp only
          generalize hin : DraftOrderInput.mk
            (List.map (lineItemOf priceMap) (List.map normalizeLine b.items))
            (noteOf b.note) ("fabric-tool" :: b.tags) = input
          cases hue : (write input).userErrors with
          | cons e0 es => intro hwc hres; simp at hres
          | nil =>
            cases hdo : (write input).draftOrder with
            | none => intro hwc hres; simp at hres
            | some d =>
              dsimp only
              by_cases hiu : d.invoiceUrl = ""
              · rw [if_pos hiu]
                intro hwc hres
                simp at hres
              · rw [if_neg hiu, if_neg hk]
                intro hwc hres
                simp only [Except.ok.injEq] at hres
                refine ⟨d.invoiceUrl, hres.symm, ?_⟩
                simp [idemSet, memSet, List.lookup]

/-- Claim C4 witness: a request whose key `key1` has the recorded url
replays that url with no calls and unchanged state, and a fresh create
under key `key2` records its returned url under `idem:key2`. -/
theorem c4_idempotency_witness :
    handle ⟨[⟨"gid://v", some 1, some "A", false, none, some [], none⟩], none, [],
        some "key1", none⟩
      [("idem:key1", ⟨CVal.idem "https://inv1", 99⟩)] 0 (fun _ => none)
      (fun _ => ⟨[], none⟩) =
      ⟨Except.ok [("invoiceUrl", "https://inv1")], [], [],
        [("idem:key1", ⟨CVal.idem "https://inv1", 99⟩)]⟩ ∧
    (∃ u, [("invoiceUrl", "https://inv2")] = [("invoiceUrl", u)] ∧
      List.lookup ("idem:" ++ "key2")
        (handle ⟨[⟨"gid://v", some 1, some "A", false, none, some [], none⟩], none, [],
            some "key2", none⟩ [] 0 (fun _ => some 206)
          (fun _ => ⟨[], some ⟨"gid://do/1", "https://inv2"⟩⟩)).finalMap =
        some ⟨CVal.idem u, 0 + 600 * 1000⟩) :=
  ⟨(c4_idempotency ⟨[⟨"gid://v", some 1, some "A", false, none, some [], none⟩], none, [],
        some "key1", none⟩
      [("idem:key1", ⟨CVal.idem "https://inv1", 99⟩)] 0 (fun _ => none)
      (fun _ => ⟨[], none⟩) "key1" rfl (by decide)).1 "https://inv1" 99
      (List.cons_ne_nil _ _) rfl (by decide) (by decide),
    (c4_idempotency ⟨[⟨"gid://v", some 1, some "A", false, none, some [], none⟩], none, [],
        some "key2", none⟩ [] 0 (fun _ => some 206)
      (fun _ => ⟨[], some ⟨"gid://do/1", "https://inv2"⟩⟩) "key2" rfl (by decide)).2
      [("invoiceUrl", "https://inv2")] (fun h => List.noConfusion h) rfl⟩

theorem handle_writeCalls_shape (b : ReqBody) (m : MemMap) (now : ℤ)
    (read : String → Option ℚ) (write : DraftOrderInput → WriteResp) :
    (handle b m now read write).writeCalls = [] ∨
    ∃ input, (handle b m now read write).writeCalls = [WriteCall.create input] := by
  unfold handle
  cases hie : b.items.isEmpty with
  | true => left; rfl
  | false =>
    simp only [Bool.false_eq_true, if_false]
    cases hhit : idemHit b.idempotencyKey m now with
    | some u => left; rfl
    | none =>
      dsimp only
      rcases hgv : getVariantPricesBatch
          (List.map Line.gid (List.map normalizeLine b.items)) m now read
        with ⟨res, calls, m1⟩
      cases res with
      | error e => left; rfl
      | ok priceMap =>
        dsimp only
        generalize hin : DraftOrderInput.mk
          (List.map (lineItemOf priceMap) (List.map normalizeLine b.items))
          (noteOf b.note) ("fabric-tool" :: b.tags) = input
        cases hue : (write input).userErrors with
        | cons e0 es => right; exact ⟨input, rfl⟩
        | nil =>
          cases hdo : (write input).draftOrder with
          | none => right; exact ⟨input, rfl⟩
          | some d =>
            dsimp only
            by_cases hiu : d.invoiceUrl = ""
            · rw [if_pos hiu]; right; exact ⟨input, rfl⟩
            · rw [if_neg hiu]
              cases b.idempotencyKey with
              | none => right; exact ⟨input, rfl⟩
              | some k =>
                dsimp only
                by_cases hke : k = ""
                · rw [if_pos hke]; right; exact ⟨input, rfl⟩
                · rw [if_neg hke]; right; exact ⟨input, rfl⟩

theorem handle_ok_shape (b : ReqBody) (m : MemMap) (now : ℤ)
    (read : String → Option ℚ) (write : DraftOrderInput → WriteResp) :
    ∀ r, (handle b m now read write).result = Except.ok r →
      ∃ u, r = [("invoiceUrl", u)] := by
  intro r
  unfold handle
  cases hie : b.items.isEmpty with
  | true => intro h; simp at h
  | false =>
    simp only [Bool.false_eq_true, if_false]
    cases hhit : idemHit b.idempotencyKey m now with
    | some u =>
      intro h
      simp only [Except.ok.injEq] at h
      exact ⟨u, h.symm⟩
    | none =>
      dsimp only
      rcases hgv : getVariantPricesBatch
          (List.map Line.gid (List.map normalizeLine b.items)) m now read
        with ⟨res, calls, m1⟩
      cases res with
      | error e => intro h; simp at h
      | ok priceMap =>
        dsimp only
        generalize hin : DraftOrderInput.mk
          (List.map (lineItemOf priceMap) (List.map normalizeLine b.items))
          (noteOf b.note) ("fabric-tool" :: b.tags) = input
        cases hue : (write input).userErrors with
        | cons e0 es => intro h; simp at h
        | nil =>
          cases hdo : (write input).draftOrder with
          | none => intro h; simp at h
          | some d =>
            dsimp only
            by_cases hiu : d.invoiceUrl = ""
            · rw [if_pos hiu]; intro h; simp at h
            · rw [if_neg hiu]
              cases b.idempotencyKey with
              | none =>
                intro h
                simp only [Except.ok.injEq] at h
                exact ⟨d.invoiceUrl, h.symm⟩
              | some k =>
                dsimp only
                by_cases hke : k = ""
                · rw [if_pos hke]
                  intro h
                  simp only [Except.ok.injEq] at h
                  exact ⟨d.invoiceUrl, h.symm⟩
                · rw [if_neg hke]
                  intro h
                  simp only [Except.ok.injEq] at h
                  exact ⟨d.invoiceUrl, h.symm⟩

/-! ### Claim C5 -/

/-- Claim C5, counterexample: a request supplying a prior draft id is
handled with a single create call and no update call — the handler never
reads `prevDraftId` and has no update path. -/
theorem c5_counterexample :
    (⟨[⟨"gid://x", some 1, some "A", false, none, some [], none⟩], some "n", [],
        none, some "gid://shopify/DraftOrder/99"⟩ : ReqBody).prevDraftId =
      some "gid://shopify/DraftOrder/99" ∧
    (handle ⟨[⟨"gid://x", some 1, some "A", false, none, some [], none⟩], some "n", [],
        none, some "gid://shopify/DraftOrder/99"⟩ [] 0 (fun _ => some 206)
      (fun _ => ⟨[], some ⟨"gid://do/7", "https://inv"⟩⟩)).writeCalls.length = 1 ∧
    ((handle ⟨[⟨"gid://x", some 1, some "A", false, none, some [], none⟩], some "n", [],
        none, some "gid://shopify/DraftOrder/99"⟩ [] 0 (fun _ => some 206)
      (fun _ => ⟨[], some ⟨"gid://do/7", "https://inv"⟩⟩)).writeCalls.all
        fun c => !c.isUpdate) = true :=
  ⟨rfl, rfl, rfl⟩

/-- Claim C5, amended: every upstream write the orchestrator issues is a
create call; a supplied prior draft id is ignored and no update call is
ever issued. -/
theorem c5_always_create_amended (b : ReqBody) (m : MemMap) (now : ℤ)
    (read : String → Option ℚ) (write : DraftOrderInput → WriteResp) :
    ((handle b m now read write).writeCalls.all fun c => !c.isUpdate) = true := by
  rcases handle_writeCalls_shape b m now read write with h | ⟨input, h⟩ <;> rw [h] <;> rfl

/-! ### Claim C6 -/

/-- Claim C6, counterexample: a successful run whose upstream response
carries the draft id `gid://do/7` replies with the JSON object holding
only the invoiceUrl key — no draftId field is returned. -/
theorem c6_counterexample :
    (handle ⟨[⟨"gid://x", some 2, some "B", false, none, some [], none⟩], none, [],
        none, none⟩ [] 0 (fun _ => some 206)
      (fun _ => ⟨[], some ⟨"gid://do/7", "https://inv"⟩⟩)).result =
      Except.ok [("invoiceUrl", "https://inv")] ∧
    "draftId" ∉ List.map Prod.fst [("invoiceUrl", "https://inv")] :=
  ⟨rfl, by decide⟩

/-- Claim C6, amended: for every successful request the handler's reply
body is exactly the one-field object carrying the invoice url; the draft
id is not part of the response. -/
theorem c6_response_amended (b : ReqBody) (m : MemMap) (now : ℤ)
    (read : String → Option ℚ) (write : DraftOrderInput → WriteResp)
    (r : List (String × String))
    (h : (handle b m now read write).result = Except.ok r) :
    (∃ u, r = [("invoiceUrl", u)]) ∧ "draftId" ∉ List.map Prod.fst r := by
  obtain ⟨u, hu⟩ := handle_ok_shape b m now read write r h
  subst hu
  exact ⟨⟨u, rfl⟩, by simp⟩

/-- Claim C6 witness: the amended response shape at the counterexample
run. -/
theorem c6_response_amended_witness :
    (∃ u, [("invoiceUrl", "https://inv")] = [("invoiceUrl", u)]) ∧
    "draftId" ∉ List.map Prod.fst [("invoiceUrl", "https://inv")] :=
  c6_response_amended ⟨[⟨"gid://x", some 2, some "B", false, none, some [], none⟩],
      none, [], none, none⟩ [] 0 (fun _ => some 206)
    (fun _ => ⟨[], some ⟨"gid://do/7", "https://inv"⟩⟩)
    [("invoiceUrl", "https://inv")] rfl

/-! ### Claim C10 -/

/-- Claim C10, counterexample: with a stored unexpired result under the
key, a request bearing that key but an empty item list is rejected with
`No items` before the idempotency lookup, so the handler does not return
the stored invoiceUrl for every pair of requests independent of their
items. -/
theorem c10_counterexample :
    List.lookup ("idem:" ++ "k")
        [("idem:k", (⟨CVal.idem "https://u", 100⟩ : CacheEntry))] =
      some (⟨CVal.idem "https://u", 100⟩ : CacheEntry) ∧
    (handle ⟨[], none, [], some "k", none⟩
      [("idem:k", ⟨CVal.idem "https://u", 100⟩)] 0 (fun _ => none)
      (fun _ => ⟨[], none⟩)).result = Except.error "No items" :=
  ⟨rfl, rfl⟩

/-- Claim C10, amended: for every two requests with non-empty item lists
bearing the same idempotency key, at a state holding an unexpired record
with a non-empty invoiceUrl for that key, the handler returns the stored
invoiceUrl for both — independent of the two requests' items, note, tags
and even of the upstream oracles — performing no price resolution, no
upstream call, and no state change for either. -/
theorem c10_replay_independent_amended (b1 b2 : ReqBody) (m : MemMap) (now : ℤ)
    (read1 read2 : String → Option ℚ) (write1 write2 : DraftOrderInput → WriteResp)
    (k u : String) (e : ℤ) (h1 : b1.items ≠ []) (h2 : b2.items ≠ [])
    (hk1 : b1.idempotencyKey = some k) (hk2 : b2.idempotencyKey = some k) (hk : k ≠ "")
    (hlk : List.lookup ("idem:" ++ k) m = some ⟨CVal.idem u, e⟩)
    (hexp : ¬ e < now) (hu : u ≠ "") :
    handle b1 m now read1 write1 = ⟨Except.ok [("invoiceUrl", u)], [], [], m⟩ ∧
    handle b2 m now read2 write2 = ⟨Except.ok [("invoiceUrl", u)], [], [], m⟩ :=
  ⟨handle_idem_hit b1 m now read1 write1 k u e h1 hk1 hk hlk hexp hu,
    handle_idem_hit b2 m now read2 write2 k u e h2 hk2 hk hlk hexp hu⟩

/-- Claim C10 witness: two requests differing in items, note and tags,
under the same key with a stored record, both receive the stored url with
empty call traces. -/
theorem c10_replay_independent_amended_witness :
    handle ⟨[⟨"gid://a", some 1, some "A", false, none, some [], none⟩], none, [],
        some "kk", none⟩ [("idem:kk", ⟨CVal.idem "https://uu", 50⟩)] 0
      (fun _ => none) (fun _ => ⟨[], none⟩) =
      ⟨Except.ok [("invoiceUrl", "https://uu")], [], [],
        [("idem:kk", ⟨CVal.idem "https://uu", 50⟩)]⟩ ∧
    handle ⟨[⟨"gid://b", some 9, some "F", true, some "Silk", some [("x", "y")], some 500⟩],
        some "other note", ["t1"], some "kk", none⟩
      [("idem:kk", ⟨CVal.idem "https://uu", 50⟩)] 0
      (fun _ => some 1) (fun _ => ⟨["boom"], none⟩) =
      ⟨Except.ok [("invoiceUrl", "https://uu")], [], [],
        [("idem:kk", ⟨CVal.idem "https://uu", 50⟩)]⟩ :=
  c10_replay_independent_amended
    ⟨[⟨"gid://a", some 1, some "A", false, none, some [], none⟩], none, [], some "kk", none⟩
    ⟨[⟨"gid://b", some 9, some "F", true, some "Silk", some [("x", "y")], some 500⟩],
      some "other note", ["t1"], some "kk", none⟩
    [("idem:kk", ⟨CVal.idem "https://uu", 50⟩)] 0 (fun _ => none) (fun _ => some 1)
    (fun _ => ⟨[], none⟩) (fun _ => ⟨["boom"], none⟩) "kk" "https://uu" 50
    (List.cons_ne_nil _ _) (List.cons_ne_nil _ _) rfl rfl (by decide) rfl (by decide)
    (by decide)

end DraftOrder
